import Mathlib

/-!
Verification of the flight-fare optimizer repository.

The repository has two source files:

* src/data_prep.py — filter_flights: predicate-based row filtering of a
  flight DataFrame.
* src/optimizer.py — find_cheapest_itinerary: picks the cheapest flight
  subject to optional secondary constraints, phrased as a binary LP with a
  select-exactly-one constraint; find_multi_leg_itinerary: a flow-model
  binary LP that selects a minimum-price set of flights forming a unit flow
  from a source city to a destination city.

A DataFrame of flights is embedded as a list of Flight records, the row
index being the list position (both optimizers work on a reset/positional
index).  Both optimizers build a binary LP over one 0/1 variable per row
and hand it to an external solver (PuLP/CBC in the source).  The solver is
not part of the repository; per the specification it is pluggable (any
solver of binary LPs satisfies the contract) and must be deterministic.
It is modelled here by exhaustive search: the feasible 0/1 assignment of
minimum objective value, with a deterministic tie-break (fewest selected
variables; remaining ties broken by enumeration order).  An infeasible
problem yields none, matching PuLP's behaviour of leaving all variable
values unset, so that no row passes the value() == 1.0 extraction test.
-/

/-- A flight record: one row of the candidate DataFrame.  The column names
follow the dataset schema used by the source; the seat-class column is
called class in the source and is written here with guillemets since class
is a Lean keyword.  Durations are modelled as rationals (they are compared,
never summed); prices are modelled as integers, the dataset's prices being
whole currency amounts (they are summed and compared, and integer
arithmetic is exactly representable). -/
structure Flight where
  source_city : String
  destination_city : String
  stops : String
  «class» : String
  departure_time : String
  arrival_time : String
  duration : ℚ
  price : ℤ
deriving DecidableEq, Inhabited, Repr

/-- Row lookup df.loc[i]: the flight at positional index i (junk default
outside range; all uses are guarded by i < df.length). -/
def flightAt (df : List Flight) (i : ℕ) : Flight :=
  df.getD i default

/-- Source city of row i. -/
def srcAt (df : List Flight) (i : ℕ) : String :=
  (flightAt df i).source_city

/-- Destination city of row i. -/
def dstAt (df : List Flight) (i : ℕ) : String :=
  (flightAt df i).destination_city

/-- Total price of a list of selected flights: selected_flights["price"].sum(). -/
def sumPrice (l : List Flight) : ℤ :=
  (l.map (fun f => f.price)).sum

/-- Extraction of the selected rows, in ascending index order:
[i for i in df.index if flight_vars[i].value() == 1.0] followed by df.loc. -/
def selectRows (df : List Flight) (S : Finset ℕ) : List Flight :=
  ((List.range df.length).filter (fun i => decide (i ∈ S))).map (flightAt df)

/-- Lexicographic comparison of character lists, by code point: the order
underlying string comparison of the categorical time buckets. -/
def charListLe : List Char → List Char → Bool
  | [], _ => true
  | _ :: _, [] => false
  | a :: as, b :: bs =>
      if a.val < b.val then true
      else if b.val < a.val then false
      else charListLe as bs

/-- Departure-bucket sort key: departure_time of a at most that of b, in
lexicographic string order. -/
def depLe (a b : Flight) : Prop :=
  charListLe a.departure_time.data b.departure_time.data = true

instance depLeDec : DecidableRel depLe := fun a b =>
  instDecidableEqBool _ _

/-- Embedding of selected_flights.sort_values("departure_time"): sort the
itinerary by the categorical departure_time bucket, ascending.  The model
uses a stable insertion sort; pandas' default quicksort does not promise a
tie order, so only tie-insensitive consequences of this definition are
claimed. -/
def sortByDeparture (l : List Flight) : List Flight :=
  l.insertionSort depLe

/-- A binary LP, the shape shared by both optimizers: one 0/1 decision
variable per row index below n, a linear cost (price) per variable, and
equality constraints.  Every constraint in the source has the shape
sum of the variables of A = sum of the variables of B + c, stored as
(A, B, c). -/
structure BinLP where
  n : ℕ
  cost : ℕ → ℤ
  constraints : List (Finset ℕ × Finset ℕ × ℕ)

/-- Objective value of a 0/1 assignment, represented by the set S of
variables set to 1. -/
def costOf (lp : BinLP) (S : Finset ℕ) : ℤ :=
  ∑ i ∈ S, lp.cost i

/-- Feasibility of the assignment S for the LP. -/
def Feasible (lp : BinLP) (S : Finset ℕ) : Prop :=
  S ⊆ Finset.range lp.n ∧
    ∀ t ∈ lp.constraints, (S ∩ t.1).card = (S ∩ t.2.1).card + t.2.2

instance feasibleDec (lp : BinLP) (S : Finset ℕ) : Decidable (Feasible lp S) :=
  decidable_of_iff
    (S ⊆ Finset.range lp.n ∧
      ∀ t ∈ lp.constraints, (S ∩ t.1).card = (S ∩ t.2.1).card + t.2.2)
    Iff.rfl

/-- All subsets of Finset.range n, as a concrete list. -/
def subsetsUpTo : ℕ → List (Finset ℕ)
  | 0 => [∅]
  | n + 1 => subsetsUpTo n ++ (subsetsUpTo n).map (insert n)

/-- The feasible assignments of the LP, as a concrete list. -/
def feasibleSets (lp : BinLP) : List (Finset ℕ) :=
  (subsetsUpTo lp.n).filter (fun S => decide (Feasible lp S))

/-- Selection key for the solver: objective value first, then number of
selected variables, compared lexicographically. -/
def solveKey (lp : BinLP) (S : Finset ℕ) : ℤ ×ₗ ℕ :=
  toLex (costOf lp S, S.card)

/-- Modelled from the spec: the external binary-LP solver (PuLP/CBC in the
source, which is not part of this repository).  Per the specification the
solver is pluggable and deterministic; it returns an optimal feasible 0/1
assignment when one exists.  Ties in the objective are broken
deterministically (fewest selected variables, then enumeration order).
For an infeasible problem it returns none: PuLP then leaves every
variable value unset, so the extraction test value() == 1.0 selects no
row. -/
def solve (lp : BinLP) : Option (Finset ℕ) :=
  (feasibleSets lp).argmin (solveKey lp)

/-- The three optional secondary-constraint filters applied by
find_cheapest_itinerary before building the LP, in source order:
duration <= max_duration, departure_time == preferred_departure,
arrival_time == latest_arrival. -/
def applyConstraints (df : List Flight) (max_duration : Option ℚ)
    (preferred_departure latest_arrival : Option String) : List Flight :=
  let df1 := match max_duration with
    | none => df
    | some x => df.filter (fun f => decide (f.duration ≤ x))
  let df2 := match preferred_departure with
    | none => df1
    | some t => df1.filter (fun f => decide (f.departure_time = t))
  match latest_arrival with
  | none => df2
  | some t => df2.filter (fun f => decide (f.arrival_time = t))

/-- The LP built by find_cheapest_itinerary: minimize the total price of
the selected rows subject to SelectOneFlight, the single constraint that
exactly one variable is 1. -/
def cheapLP (df : List Flight) : BinLP :=
  ⟨df.length, fun i => (flightAt df i).price, [(Finset.range df.length, ∅, 1)]⟩

/-- Embedding of find_cheapest_itinerary (src/optimizer.py): filter by the
optional secondary constraints; if nothing remains return an empty frame
and total price 0 (a printed warning, not an exception); otherwise solve
the select-exactly-one LP and return the selected rows with their total
price. -/
def find_cheapest_itinerary (df : List Flight) (max_duration : Option ℚ)
    (preferred_departure latest_arrival : Option String) : List Flight × ℤ :=
  if applyConstraints df max_duration preferred_departure latest_arrival = [] then
    ([], 0)
  else
    match solve (cheapLP (applyConstraints df max_duration preferred_departure latest_arrival)) with
    | none => ([], 0)
    | some S =>
        (selectRows (applyConstraints df max_duration preferred_departure latest_arrival) S,
         sumPrice (selectRows (applyConstraints df max_duration preferred_departure latest_arrival) S))

/-- The cities of the candidate set, in first-occurrence order:
set(df["source_city"]) | set(df["destination_city"]). -/
def citiesList (df : List Flight) : List String :=
  ((df.map (fun f => f.source_city)) ++ (df.map (fun f => f.destination_city))).dedup

/-- The cities of the candidate set, as a finite set. -/
def allCities (df : List Flight) : Finset String :=
  (citiesList df).toFinset

/-- Indices of the flights arriving at city c. -/
def inIdx (df : List Flight) (c : String) : Finset ℕ :=
  (Finset.range df.length).filter (fun i => dstAt df i = c)

/-- Indices of the flights departing from city c. -/
def outIdx (df : List Flight) (c : String) : Finset ℕ :=
  (Finset.range df.length).filter (fun i => srcAt df i = c)

/-- The city flow constraints of find_multi_leg_itinerary, one group per
city: the source city departs once and is never arrived at, the
destination city is arrived at once and never departed from, and every
other city conserves flow.  The source's if/elif makes the source branch
win when source equals destination, which the nested if mirrors. -/
def cityConstraints (df : List Flight) (s d : String) :
    List (Finset ℕ × Finset ℕ × ℕ) :=
  (citiesList df).flatMap (fun c =>
    if c = s then [(outIdx df c, ∅, 1), (inIdx df c, ∅, 0)]
    else if c = d then [(inIdx df c, ∅, 1), (outIdx df c, ∅, 0)]
    else [(inIdx df c, outIdx df c, 0)])

/-- The LP built by find_multi_leg_itinerary: minimize the total price of
the selected flights subject to the city flow constraints. -/
def multiLegLP (df : List Flight) (s d : String) : BinLP :=
  ⟨df.length, fun i => (flightAt df i).price, cityConstraints df s d⟩

/-- Embedding of find_multi_leg_itinerary (src/optimizer.py): copy and
reset the index (positional indices in the list model), build and solve
the flow LP, and return the rows whose variable is 1, sorted by
departure_time, with their total price.  The source never inspects the
solver status; on an infeasible problem no variable value equals 1.0 and
the same empty frame and 0 price as the infeasible sentinel are
returned. -/
def find_multi_leg_itinerary (df : List Flight) (source destination : String) :
    List Flight × ℤ :=
  match solve (multiLegLP df source destination) with
  | none => ([], 0)
  | some S => (sortByDeparture (selectRows df S), sumPrice (selectRows df S))

/-- Embedding of Python str.lower() for the ASCII category labels of the
dataset: lower-case every character. -/
def lowerStr (s : String) : String :=
  ⟨s.data.map Char.toLower⟩

/-- Embedding of stop_mapping.get(x, 2) from filter_flights
(src/data_prep.py): the dictionary {zero: 0, one: 1, two_or_more: 2}
looked up with default 2.  The caller passes x.lower(). -/
def stop_mapping_get (x : String) : ℕ :=
  if x = "zero" then 0
  else if x = "one" then 1
  else if x = "two_or_more" then 2
  else 2

/-- Specification-side stop-level map, written from the spec's words: the
categorical stops label is mapped case-insensitively through
{zero: 0, one: 1, two_or_more: 2}, any label outside the set mapping to
2. -/
def specStopLevel (s : String) : ℕ :=
  if lowerStr s = "zero" then 0
  else if lowerStr s = "one" then 1
  else if lowerStr s = "two_or_more" then 2
  else 2

/-- Embedding of filter_flights (src/data_prep.py): the chain of optional
attribute filters, applied in source order.  The source copies the input
frame and resets the index of the result; in the list model both are the
identity. -/
def filter_flights (df : List Flight) (source destination : Option String)
    (max_stops : Option ℕ) (seat_class : Option String)
    (preferred_departure : Option String) (max_duration max_price : Option ℚ)
    (direct_only : Bool) : List Flight :=
  let f1 :=
    if direct_only then
      let fa := match source with
        | none => df
        | some s => df.filter (fun f => decide (f.source_city = s))
      match destination with
      | none => fa
      | some t => fa.filter (fun f => decide (f.destination_city = t))
    else df
  let f2 := match seat_class with
    | none => f1
    | some c => f1.filter (fun f => decide (f.«class» = c))
  let f3 := match max_stops with
    | none => f2
    | some k => f2.filter (fun f => decide (stop_mapping_get (lowerStr f.stops) ≤ k))
  let f4 := match preferred_departure with
    | none => f3
    | some t => f3.filter (fun f => decide (f.departure_time = t))
  let f5 := match max_duration with
    | none => f4
    | some x => f4.filter (fun f => decide (f.duration ≤ x))
  match max_price with
  | none => f5
  | some x => f5.filter (fun f => decide (f.price ≤ x))

/-- Number of selected flights arriving at city c. -/
def inCnt (df : List Flight) (S : Finset ℕ) (c : String) : ℕ :=
  (S.filter (fun i => dstAt df i = c)).card

/-- Number of selected flights departing from city c. -/
def outCnt (df : List Flight) (S : Finset ℕ) (c : String) : ℕ :=
  (S.filter (fun i => srcAt df i = c)).card

/-- A selection is balanced when every city has as many selected inbound
flights as selected outbound flights. -/
def BalancedSel (df : List Flight) (S : Finset ℕ) : Prop :=
  ∀ c, inCnt df S c = outCnt df S c

/-- No nonempty subset of the selection is balanced (no selected cycle). -/
def NoBalSub (df : List Flight) (S : Finset ℕ) : Prop :=
  ∀ T, T ⊆ S → T ≠ ∅ → ¬ BalancedSel df T

/-- Quasi-feasibility of a selection for a source and destination: one
excess departure at s, one excess arrival at d, and conservation at every
other city. -/
def Quasi (df : List Flight) (S : Finset ℕ) (s d : String) : Prop :=
  outCnt df S s = inCnt df S s + 1 ∧
  inCnt df S d = outCnt df S d + 1 ∧
  ∀ c, c ≠ s → c ≠ d → inCnt df S c = outCnt df S c

/-- A walk through the flight graph: the index list L chains flights from
s to d, each flight departing from the city the previous one arrived at. -/
def walk (df : List Flight) : String → String → List ℕ → Prop
  | s, d, [] => s = d
  | s, d, i :: L => srcAt df i = s ∧ walk df (dstAt df i) d L

/-- The city reached after following the flights of L starting at s. -/
def endCity (df : List Flight) : String → List ℕ → String
  | s, [] => s
  | _, i :: L => endCity df (dstAt df i) L

/-- Concrete data for the checks: scenario A of the spec (two direct
flights, prices 100 and 80). -/
def flA1 : Flight := ⟨"A", "B", "zero", "Economy", "Morning", "Night", 2, 100⟩

def flA2 : Flight := ⟨"A", "B", "zero", "Economy", "Evening", "Night", 3, 80⟩

def dfA : List Flight := [flA1, flA2]

/-- Concrete data for the checks: scenario B of the spec (two-leg path
A-B-C of total price 110 against a direct A-C flight of price 200). -/
def flB1 : Flight := ⟨"A", "B", "zero", "Economy", "Evening", "Night", 2, 50⟩

def flB2 : Flight := ⟨"B", "C", "zero", "Economy", "Morning", "Afternoon", 2, 60⟩

def flB3 : Flight := ⟨"A", "C", "zero", "Economy", "Afternoon", "Night", 3, 200⟩

def dfB : List Flight := [flB1, flB2, flB3]

/-- Concrete data for the checks: a single A-to-B flight. -/
def flD : Flight := ⟨"A", "B", "zero", "Economy", "Morning", "Night", 2, 40⟩

def dfD : List Flight := [flD]

/-- Concrete data for the monotonicity check: the cheap flight is long,
the expensive flight is short. -/
def flM1 : Flight := ⟨"A", "B", "zero", "Economy", "Morning", "Night", 10, 50⟩

def flM2 : Flight := ⟨"A", "B", "zero", "Economy", "Morning", "Night", 3, 90⟩

def dfM : List Flight := [flM1, flM2]

/-- Concrete data for the stop-bucketing check: a flight with an
unrecognized stops label. -/
def flU : Flight := ⟨"A", "B", "Some-New-Label", "Economy", "Morning", "Night", 2, 100⟩

theorem mem_subsetsUpTo : ∀ {n : ℕ} {S : Finset ℕ}, S ∈ subsetsUpTo n ↔ S ⊆ Finset.range n := by
  intro n
  induction n with
  | zero =>
    intro S
    simp [subsetsUpTo, Finset.subset_empty]
  | succ n ih =>
    intro S
    constructor
    · intro h
      rcases List.mem_append.mp h with h | h
      · exact (ih.mp h).trans (Finset.range_subset.mpr (Nat.le_succ n))
      · obtain ⟨T, hT, rfl⟩ := List.mem_map.mp h
        have hTsub := ih.mp hT
        intro j hj
        rcases Finset.mem_insert.mp hj with rfl | hj
        · exact Finset.mem_range.mpr (Nat.lt_succ_self _)
        · exact Finset.range_subset.mpr (Nat.le_succ n) (hTsub hj)
    · intro h
      by_cases hn : n ∈ S
      · refine List.mem_append.mpr (Or.inr (List.mem_map.mpr ⟨S.erase n, ih.mpr ?_, Finset.insert_erase hn⟩))
        intro j hj
        have hj1 := Finset.mem_of_mem_erase hj
        have hj2 := Finset.ne_of_mem_erase hj
        have := Finset.mem_range.mp (h hj1)
        exact Finset.mem_range.mpr (by omega)
      · refine List.mem_append.mpr (Or.inl (ih.mpr ?_))
        intro j hj
        have := Finset.mem_range.mp (h hj)
        have : j ≠ n := fun e => hn (e ▸ hj)
        exact Finset.mem_range.mpr (by omega)

theorem feasible_mem_feasibleSets (lp : BinLP) {T : Finset ℕ} (h : Feasible lp T) :
    T ∈ feasibleSets lp :=
  List.mem_filter.mpr ⟨mem_subsetsUpTo.mpr h.1, decide_eq_true h⟩

theorem solve_feasible (lp : BinLP) {S : Finset ℕ} (h : solve lp = some S) :
    Feasible lp S := by
  have hm : S ∈ feasibleSets lp := List.argmin_mem h
  exact of_decide_eq_true (List.mem_filter.mp hm).2

theorem solve_min (lp : BinLP) {S T : Finset ℕ} (h : solve lp = some S)
    (hT : Feasible lp T) :
    costOf lp S < costOf lp T ∨ (costOf lp S = costOf lp T ∧ S.card ≤ T.card) := by
  have hle := List.le_of_mem_argmin (feasible_mem_feasibleSets lp hT) h
  simpa [solveKey, Prod.Lex.le_iff] using hle

theorem solve_of_feasible (lp : BinLP) {T : Finset ℕ} (h : Feasible lp T) :
    ∃ S, solve lp = some S := by
  cases hs : solve lp with
  | some S => exact ⟨S, rfl⟩
  | none =>
    rw [solve, List.argmin_eq_none] at hs
    exact absurd (feasible_mem_feasibleSets lp h) (by simp [hs])

theorem selectRows_empty (df : List Flight) : selectRows df ∅ = [] := by
  simp [selectRows]

theorem filter_range_eq_singleton : ∀ {n i : ℕ}, i < n →
    (List.range n).filter (fun j => decide (j = i)) = [i] := by
  intro n
  induction n with
  | zero => intro i h; omega
  | succ n ih =>
    intro i h
    rw [List.range_succ, List.filter_append]
    rcases Nat.lt_succ_iff_lt_or_eq.mp h with h' | rfl
    · rw [ih h']
      have hne : ¬ (n = i) := by omega
      have : (List.filter (fun j => decide (j = i)) [n]) = [] := by
        simp [List.filter, hne]
      rw [this]
      simp
    · have h0 : (List.range i).filter (fun j => decide (j = i)) = [] := by
        rw [List.filter_eq_nil_iff]
        intro a ha
        have := List.mem_range.mp ha
        simp
        omega
      rw [h0]
      simp [List.filter]

theorem selectRows_singleton (df : List Flight) {i : ℕ} (h : i < df.length) :
    selectRows df {i} = [flightAt df i] := by
  rw [selectRows]
  have : (fun j => decide (j ∈ ({i} : Finset ℕ))) = fun j => decide (j = i) := by
    funext j
    simp
  rw [this, filter_range_eq_singleton h]
  rfl

theorem sumPrice_singleton (f : Flight) : sumPrice [f] = f.price := by
  simp [sumPrice]

theorem mem_applyConstraints {df : List Flight} {md : Option ℚ} {pd la : Option String}
    {g : Flight} :
    g ∈ applyConstraints df md pd la ↔
      g ∈ df ∧ (∀ x, md = some x → g.duration ≤ x) ∧
        (∀ t, pd = some t → g.departure_time = t) ∧
        (∀ t, la = some t → g.arrival_time = t) := by
  rcases md with _ | x <;> rcases pd with _ | t₁ <;> rcases la with _ | t₂ <;>
    simp [applyConstraints, List.mem_filter, and_assoc] <;> tauto

theorem feasible_cheapLP {df : List Flight} {S : Finset ℕ} :
    Feasible (cheapLP df) S ↔ S ⊆ Finset.range df.length ∧ S.card = 1 := by
  constructor
  · rintro ⟨h1, h2⟩
    have h1' : S ⊆ Finset.range df.length := h1
    refine ⟨h1', ?_⟩
    have h3 : (S ∩ Finset.range df.length).card = (S ∩ ∅).card + 1 :=
      h2 (Finset.range df.length, ∅, 1) (by simp [cheapLP])
    rwa [Finset.inter_eq_left.mpr h1', Finset.inter_empty, Finset.card_empty, Nat.zero_add] at h3
  · rintro ⟨h1, h2⟩
    refine ⟨h1, ?_⟩
    intro t ht
    have ht2 : t = (Finset.range df.length, ∅, 1) := by simpa [cheapLP] using ht
    subst ht2
    show (S ∩ Finset.range df.length).card = (S ∩ ∅).card + 1
    rw [Finset.inter_eq_left.mpr h1, Finset.inter_empty, Finset.card_empty, Nat.zero_add]
    exact h2

theorem cheapest_spec (df : List Flight) (md : Option ℚ) (pd la : Option String)
    (hne : applyConstraints df md pd la ≠ []) :
    ∃ i, i < (applyConstraints df md pd la).length ∧
      find_cheapest_itinerary df md pd la =
        ([flightAt (applyConstraints df md pd la) i],
         (flightAt (applyConstraints df md pd la) i).price) ∧
      ∀ g ∈ applyConstraints df md pd la,
        (flightAt (applyConstraints df md pd la) i).price ≤ g.price := by
  set df3 := applyConstraints df md pd la with hdf3
  have hlen : 0 < df3.length := List.length_pos.mpr hne
  have hfeas0 : Feasible (cheapLP df3) {0} :=
    feasible_cheapLP.mpr ⟨by simp [Finset.singleton_subset_iff, hlen], Finset.card_singleton 0⟩
  obtain ⟨S, hS⟩ := solve_of_feasible _ hfeas0
  obtain ⟨hsub, hcard⟩ := feasible_cheapLP.mp (solve_feasible _ hS)
  obtain ⟨i, rfl⟩ := Finset.card_eq_one.mp hcard
  have hi : i < df3.length := Finset.mem_range.mp (hsub (Finset.mem_singleton_self i))
  refine ⟨i, hi, ?_, ?_⟩
  · rw [find_cheapest_itinerary, if_neg hne, hS]
    show (selectRows df3 {i}, sumPrice (selectRows df3 {i})) = _
    rw [selectRows_singleton df3 hi, sumPrice_singleton]
  · intro g hg
    obtain ⟨⟨j, hj⟩, hget⟩ := List.mem_iff_get.mp hg
    have hfj : Feasible (cheapLP df3) {j} :=
      feasible_cheapLP.mpr ⟨by simp [Finset.singleton_subset_iff, hj], Finset.card_singleton j⟩
    have hmin := solve_min _ hS hfj
    have hci : costOf (cheapLP df3) {i} = (flightAt df3 i).price := Finset.sum_singleton _ _
    have hcj : costOf (cheapLP df3) {j} = g.price := by
      rw [costOf]
      rw [Finset.sum_singleton]
      show (flightAt df3 j).price = g.price
      rw [flightAt, List.getD_eq_get df3 default hj, hget]
    rw [hci, hcj] at hmin
    rcases hmin with h | ⟨h, _⟩
    · exact le_of_lt h
    · exact le_of_eq h

theorem flightAt_mem {df : List Flight} {i : ℕ} (h : i < df.length) :
    flightAt df i ∈ df := by
  rw [flightAt, List.getD_eq_getElem df default h]
  exact List.getElem_mem h

theorem srcAt_mem_allCities {df : List Flight} {i : ℕ} (h : i < df.length) :
    srcAt df i ∈ allCities df := by
  simp only [allCities, citiesList, List.mem_toFinset, List.mem_dedup, List.mem_append,
    List.mem_map]
  exact Or.inl ⟨flightAt df i, flightAt_mem h, rfl⟩

theorem dstAt_mem_allCities {df : List Flight} {i : ℕ} (h : i < df.length) :
    dstAt df i ∈ allCities df := by
  simp only [allCities, citiesList, List.mem_toFinset, List.mem_dedup, List.mem_append,
    List.mem_map]
  exact Or.inr ⟨flightAt df i, flightAt_mem h, rfl⟩

theorem inter_inIdx {df : List Flight} {c : String} {S : Finset ℕ}
    (h : S ⊆ Finset.range df.length) :
    S ∩ inIdx df c = S.filter (fun i => dstAt df i = c) := by
  ext i
  simp only [Finset.mem_inter, inIdx, Finset.mem_filter, Finset.mem_range]
  constructor
  · rintro ⟨h1, _, h3⟩
    exact ⟨h1, h3⟩
  · rintro ⟨h1, h2⟩
    exact ⟨h1, Finset.mem_range.mp (h h1), h2⟩

theorem inter_outIdx {df : List Flight} {c : String} {S : Finset ℕ}
    (h : S ⊆ Finset.range df.length) :
    S ∩ outIdx df c = S.filter (fun i => srcAt df i = c) := by
  ext i
  simp only [Finset.mem_inter, outIdx, Finset.mem_filter, Finset.mem_range]
  constructor
  · rintro ⟨h1, _, h3⟩
    exact ⟨h1, h3⟩
  · rintro ⟨h1, h2⟩
    exact ⟨h1, Finset.mem_range.mp (h h1), h2⟩

theorem mem_cityConstraints {df : List Flight} {s d : String}
    {t : Finset ℕ × Finset ℕ × ℕ} :
    t ∈ cityConstraints df s d ↔
      ∃ c ∈ citiesList df,
        t ∈ (if c = s then [(outIdx df c, ∅, 1), (inIdx df c, ∅, 0)]
             else if c = d then [(inIdx df c, ∅, 1), (outIdx df c, ∅, 0)]
             else [(inIdx df c, outIdx df c, 0)]) := by
  rw [cityConstraints]
  exact List.mem_flatMap

theorem feasible_multiLeg_iff {df : List Flight} {s d : String} {S : Finset ℕ} :
    Feasible (multiLegLP df s d) S ↔
      S ⊆ Finset.range df.length ∧
      ∀ c ∈ allCities df,
        if c = s then outCnt df S c = 1 ∧ inCnt df S c = 0
        else if c = d then inCnt df S c = 1 ∧ outCnt df S c = 0
        else inCnt df S c = outCnt df S c := by
  constructor
  · rintro ⟨h1, h2⟩
    have h1' : S ⊆ Finset.range df.length := h1
    have hP : ∀ A B k, (A, B, k) ∈ cityConstraints df s d →
        (S ∩ A).card = (S ∩ B).card + k := fun A B k hh => h2 _ hh
    refine ⟨h1', fun c hc => ?_⟩
    have hc' : c ∈ citiesList df := by simpa [allCities] using hc
    by_cases hcs : c = s
    · rw [if_pos hcs]
      have e1 := hP (outIdx df c) ∅ 1
        (mem_cityConstraints.mpr ⟨c, hc', by rw [if_pos hcs]; simp⟩)
      have e2 := hP (inIdx df c) ∅ 0
        (mem_cityConstraints.mpr ⟨c, hc', by rw [if_pos hcs]; simp⟩)
      rw [inter_outIdx h1', Finset.inter_empty, Finset.card_empty] at e1
      rw [inter_inIdx h1', Finset.inter_empty, Finset.card_empty] at e2
      exact ⟨by simpa [outCnt] using e1, by simpa [inCnt] using e2⟩
    · by_cases hcd : c = d
      · rw [if_neg hcs, if_pos hcd]
        have e1 := hP (inIdx df c) ∅ 1
          (mem_cityConstraints.mpr ⟨c, hc', by rw [if_neg hcs, if_pos hcd]; simp⟩)
        have e2 := hP (outIdx df c) ∅ 0
          (mem_cityConstraints.mpr ⟨c, hc', by rw [if_neg hcs, if_pos hcd]; simp⟩)
        rw [inter_inIdx h1', Finset.inter_empty, Finset.card_empty] at e1
        rw [inter_outIdx h1', Finset.inter_empty, Finset.card_empty] at e2
        exact ⟨by simpa [inCnt] using e1, by simpa [outCnt] using e2⟩
      · rw [if_neg hcs, if_neg hcd]
        have e1 := hP (inIdx df c) (outIdx df c) 0
          (mem_cityConstraints.mpr ⟨c, hc', by rw [if_neg hcs, if_neg hcd]; simp⟩)
        rw [inter_inIdx h1', inter_outIdx h1', Nat.add_zero] at e1
        simpa [inCnt, outCnt] using e1
  · rintro ⟨h1, hC⟩
    refine ⟨h1, ?_⟩
    intro t ht
    obtain ⟨c, hc, htc⟩ := mem_cityConstraints.mp ht
    have hcA : c ∈ allCities df := by simpa [allCities] using hc
    have hcond := hC c hcA
    by_cases hcs : c = s
    · rw [if_pos hcs] at htc hcond
      rcases List.mem_cons.mp htc with rfl | htc2
      · show (S ∩ outIdx df c).card = (S ∩ ∅).card + 1
        rw [inter_outIdx h1, Finset.inter_empty, Finset.card_empty]
        simpa [outCnt] using hcond.1
      · rw [List.mem_singleton.mp htc2]
        show (S ∩ inIdx df c).card = (S ∩ ∅).card + 0
        rw [inter_inIdx h1, Finset.inter_empty, Finset.card_empty]
        simpa [inCnt] using hcond.2
    · by_cases hcd : c = d
      · rw [if_neg hcs, if_pos hcd] at htc hcond
        rcases List.mem_cons.mp htc with rfl | htc2
        · show (S ∩ inIdx df c).card = (S ∩ ∅).card + 1
          rw [inter_inIdx h1, Finset.inter_empty, Finset.card_empty]
          simpa [inCnt] using hcond.1
        · rw [List.mem_singleton.mp htc2]
          show (S ∩ outIdx df c).card = (S ∩ ∅).card + 0
          rw [inter_outIdx h1, Finset.inter_empty, Finset.card_empty]
          simpa [outCnt] using hcond.2
      · rw [if_neg hcs, if_neg hcd] at htc hcond
        rw [List.mem_singleton.mp htc]
        show (S ∩ inIdx df c).card = (S ∩ outIdx df c).card + 0
        rw [inter_inIdx h1, inter_outIdx h1, Nat.add_zero]
        simpa [inCnt, outCnt] using hcond

theorem inCnt_zero_outside {df : List Flight} {S : Finset ℕ} {c : String}
    (hS : S ⊆ Finset.range df.length) (hc : c ∉ allCities df) :
    inCnt df S c = 0 := by
  rw [inCnt, Finset.card_eq_zero, Finset.filter_eq_empty_iff]
  intro i hi he
  exact hc (he ▸ dstAt_mem_allCities (Finset.mem_range.mp (hS hi)))

theorem outCnt_zero_outside {df : List Flight} {S : Finset ℕ} {c : String}
    (hS : S ⊆ Finset.range df.length) (hc : c ∉ allCities df) :
    outCnt df S c = 0 := by
  rw [outCnt, Finset.card_eq_zero, Finset.filter_eq_empty_iff]
  intro i hi he
  exact hc (he ▸ srcAt_mem_allCities (Finset.mem_range.mp (hS hi)))

theorem sum_inCnt {df : List Flight} {S : Finset ℕ}
    (hS : S ⊆ Finset.range df.length) :
    ∑ c ∈ allCities df, inCnt df S c = S.card :=
  (Finset.card_eq_sum_card_fiberwise
    (fun i hi => dstAt_mem_allCities (Finset.mem_range.mp (hS hi)))).symm

theorem sum_outCnt {df : List Flight} {S : Finset ℕ}
    (hS : S ⊆ Finset.range df.length) :
    ∑ c ∈ allCities df, outCnt df S c = S.card :=
  (Finset.card_eq_sum_card_fiberwise
    (fun i hi => srcAt_mem_allCities (Finset.mem_range.mp (hS hi)))).symm

theorem not_feasible_same {df : List Flight} {s : String} {S : Finset ℕ}
    (hs : s ∈ allCities df) : ¬ Feasible (multiLegLP df s s) S := by
  intro hF
  obtain ⟨h1, hC⟩ := feasible_multiLeg_iff.mp hF
  have hcond := hC s hs
  rw [if_pos rfl] at hcond
  have hIn := (Finset.add_sum_erase _ (inCnt df S) hs).symm
  have hOut := (Finset.add_sum_erase _ (outCnt df S) hs).symm
  have heq : ∑ c ∈ (allCities df).erase s, inCnt df S c
      = ∑ c ∈ (allCities df).erase s, outCnt df S c := by
    refine Finset.sum_congr rfl (fun c hc => ?_)
    have hcs : c ≠ s := Finset.ne_of_mem_erase hc
    have := hC c (Finset.mem_of_mem_erase hc)
    rwa [if_neg hcs, if_neg hcs] at this
  have hsi := sum_inCnt h1
  have hso := sum_outCnt h1
  omega

theorem not_feasible_src_only {df : List Flight} {s d : String} {S : Finset ℕ}
    (hs : s ∈ allCities df) (hd : d ∉ allCities df) :
    ¬ Feasible (multiLegLP df s d) S := by
  intro hF
  obtain ⟨h1, hC⟩ := feasible_multiLeg_iff.mp hF
  have hsd : s ≠ d := fun e => hd (e ▸ hs)
  have hcond := hC s hs
  rw [if_pos rfl] at hcond
  have hIn := (Finset.add_sum_erase _ (inCnt df S) hs).symm
  have hOut := (Finset.add_sum_erase _ (outCnt df S) hs).symm
  have heq : ∑ c ∈ (allCities df).erase s, inCnt df S c
      = ∑ c ∈ (allCities df).erase s, outCnt df S c := by
    refine Finset.sum_congr rfl (fun c hc => ?_)
    have hcs : c ≠ s := Finset.ne_of_mem_erase hc
    have hcd : c ≠ d := fun e => hd (e ▸ Finset.mem_of_mem_erase hc)
    have := hC c (Finset.mem_of_mem_erase hc)
    rwa [if_neg hcs, if_neg hcd] at this
  have hsi := sum_inCnt h1
  have hso := sum_outCnt h1
  omega

theorem not_feasible_dst_only {df : List Flight} {s d : String} {S : Finset ℕ}
    (hs : s ∉ allCities df) (hd : d ∈ allCities df) :
    ¬ Feasible (multiLegLP df s d) S := by
  intro hF
  obtain ⟨h1, hC⟩ := feasible_multiLeg_iff.mp hF
  have hsd : s ≠ d := fun e => hs (e ▸ hd)
  have hcond := hC d hd
  rw [if_neg (Ne.symm hsd), if_pos rfl] at hcond
  have hIn := (Finset.add_sum_erase _ (inCnt df S) hd).symm
  have hOut := (Finset.add_sum_erase _ (outCnt df S) hd).symm
  have heq : ∑ c ∈ (allCities df).erase d, inCnt df S c
      = ∑ c ∈ (allCities df).erase d, outCnt df S c := by
    refine Finset.sum_congr rfl (fun c hc => ?_)
    have hcd : c ≠ d := Finset.ne_of_mem_erase hc
    have hcs : c ≠ s := fun e => hs (e ▸ Finset.mem_of_mem_erase hc)
    have := hC c (Finset.mem_of_mem_erase hc)
    rwa [if_neg hcs, if_neg hcd] at this
  have hsi := sum_inCnt h1
  have hso := sum_outCnt h1
  omega

theorem filterCard_sdiff_add {α : Type} [DecidableEq α] {p : α → Prop}
    [DecidablePred p] {S T : Finset α} (hT : T ⊆ S) :
    ((S \ T).filter p).card + (T.filter p).card = (S.filter p).card := by
  have hdisj : Disjoint ((S \ T).filter p) (T.filter p) :=
    Finset.sdiff_disjoint.mono (Finset.filter_subset _ _) (Finset.filter_subset _ _)
  rw [← Finset.card_union_of_disjoint hdisj, ← Finset.filter_union,
    Finset.sdiff_union_of_subset hT]

theorem inCnt_sdiff_add {df : List Flight} {S T : Finset ℕ} {c : String}
    (hT : T ⊆ S) : inCnt df (S \ T) c + inCnt df T c = inCnt df S c :=
  filterCard_sdiff_add hT

theorem outCnt_sdiff_add {df : List Flight} {S T : Finset ℕ} {c : String}
    (hT : T ⊆ S) : outCnt df (S \ T) c + outCnt df T c = outCnt df S c :=
  filterCard_sdiff_add hT

theorem filterCard_erase_of_mem {α : Type} [DecidableEq α] {p : α → Prop}
    [DecidablePred p] {S : Finset α} {i : α} (hi : i ∈ S) (hp : p i) :
    (S.filter p).card = ((S.erase i).filter p).card + 1 := by
  rw [Finset.filter_erase, Finset.card_erase_of_mem (Finset.mem_filter.mpr ⟨hi, hp⟩)]
  have : 0 < (S.filter p).card :=
    Finset.card_pos.mpr ⟨i, Finset.mem_filter.mpr ⟨hi, hp⟩⟩
  omega

theorem filterCard_erase_of_not {α : Type} [DecidableEq α] {p : α → Prop}
    [DecidablePred p] {S : Finset α} {i : α} (hp : ¬ p i) :
    ((S.erase i).filter p).card = (S.filter p).card := by
  rw [Finset.filter_erase,
    Finset.erase_eq_of_not_mem (fun hmem => hp (Finset.mem_filter.mp hmem).2)]

theorem costOf_nonneg {df : List Flight} {s d : String} {S : Finset ℕ}
    (hpos : ∀ f ∈ df, 0 ≤ f.price) (hS : S ⊆ Finset.range df.length) :
    0 ≤ costOf (multiLegLP df s d) S :=
  Finset.sum_nonneg (fun i hi => hpos _ (flightAt_mem (Finset.mem_range.mp (hS hi))))

theorem feasible_sdiff {df : List Flight} {s d : String} {S T : Finset ℕ}
    (hF : Feasible (multiLegLP df s d) S) (hT : T ⊆ S) (hB : BalancedSel df T) :
    Feasible (multiLegLP df s d) (S \ T) := by
  obtain ⟨h1, hC⟩ := feasible_multiLeg_iff.mp hF
  refine feasible_multiLeg_iff.mpr ⟨Finset.sdiff_subset.trans h1, fun c hc => ?_⟩
  have hcond := hC c hc
  have hIn : inCnt df (S \ T) c + inCnt df T c = inCnt df S c := inCnt_sdiff_add hT
  have hOut : outCnt df (S \ T) c + outCnt df T c = outCnt df S c := outCnt_sdiff_add hT
  have hBc := hB c
  rw [BalancedSel] at hB
  split_ifs at hcond ⊢ with h h2
  · exact ⟨by omega, by omega⟩
  · exact ⟨by omega, by omega⟩
  · omega

theorem noBalSub_of_solve {df : List Flight} {s d : String} {S : Finset ℕ}
    (hpos : ∀ f ∈ df, 0 ≤ f.price) (hS : solve (multiLegLP df s d) = some S) :
    NoBalSub df S := by
  intro T hTS hTne hB
  have hF := solve_feasible _ hS
  have hmin := solve_min _ hS (feasible_sdiff hF hTS hB)
  have hsub : S ⊆ Finset.range df.length := hF.1
  have hcost : costOf (multiLegLP df s d) (S \ T) + costOf (multiLegLP df s d) T
      = costOf (multiLegLP df s d) S := Finset.sum_sdiff hTS
  have hTpos : 0 ≤ costOf (multiLegLP df s d) T := costOf_nonneg hpos (hTS.trans hsub)
  have hcard : (S \ T).card < S.card := by
    have h1 : (S \ T).card = S.card - T.card := Finset.card_sdiff hTS
    have h2 : 0 < T.card := Finset.card_pos.mpr (Finset.nonempty_iff_ne_empty.mpr hTne)
    have h3 : T.card ≤ S.card := Finset.card_le_card hTS
    omega
  rcases hmin with h | ⟨h, hc⟩
  · linarith
  · omega

theorem quasi_of_feasible {df : List Flight} {s d : String} {S : Finset ℕ}
    (hF : Feasible (multiLegLP df s d) S) (hs : s ∈ allCities df)
    (hd : d ∈ allCities df) (hsd : s ≠ d) : Quasi df S s d := by
  obtain ⟨h1, hC⟩ := feasible_multiLeg_iff.mp hF
  refine ⟨?_, ?_, ?_⟩
  · have := hC s hs
    rw [if_pos rfl] at this
    omega
  · have := hC d hd
    rw [if_neg (Ne.symm hsd), if_pos rfl] at this
    omega
  · intro c hcs hcd
    by_cases hcA : c ∈ allCities df
    · have := hC c hcA
      rwa [if_neg hcs, if_neg hcd] at this
    · rw [inCnt_zero_outside h1 hcA, outCnt_zero_outside h1 hcA]

theorem feasible_empty_of_absent {df : List Flight} {s d : String}
    (hs : s ∉ allCities df) (hd : d ∉ allCities df) :
    Feasible (multiLegLP df s d) ∅ :=
  feasible_multiLeg_iff.mpr ⟨Finset.empty_subset _, fun c hc => by
    have hcs : c ≠ s := fun e => hs (by rwa [e] at hc)
    have hcd : c ≠ d := fun e => hd (by rwa [e] at hc)
    rw [if_neg hcs, if_neg hcd]
    simp [inCnt, outCnt]⟩

theorem solve_eq_empty_of_absent {df : List Flight} {s d : String} {S : Finset ℕ}
    (hpos : ∀ f ∈ df, 0 ≤ f.price) (hs : s ∉ allCities df) (hd : d ∉ allCities df)
    (hsol : solve (multiLegLP df s d) = some S) : S = ∅ := by
  have hmin := solve_min _ hsol (feasible_empty_of_absent hs hd)
  have h0 : costOf (multiLegLP df s d) ∅ = 0 := Finset.sum_empty
  have hpos' : 0 ≤ costOf (multiLegLP df s d) S :=
    costOf_nonneg hpos (solve_feasible _ hsol).1
  rcases hmin with h | ⟨h, hc⟩
  · rw [h0] at h
    linarith
  · have hcz : S.card = 0 := by simpa using hc
    exact Finset.card_eq_zero.mp hcz

theorem inCnt_erase_of_mem {df : List Flight} {S : Finset ℕ} {i : ℕ} {c : String}
    (hi : i ∈ S) (h : dstAt df i = c) :
    inCnt df S c = inCnt df (S.erase i) c + 1 :=
  filterCard_erase_of_mem hi h

theorem inCnt_erase_of_ne {df : List Flight} {S : Finset ℕ} {i : ℕ} {c : String}
    (h : dstAt df i ≠ c) : inCnt df (S.erase i) c = inCnt df S c :=
  filterCard_erase_of_not h

theorem outCnt_erase_of_mem {df : List Flight} {S : Finset ℕ} {i : ℕ} {c : String}
    (hi : i ∈ S) (h : srcAt df i = c) :
    outCnt df S c = outCnt df (S.erase i) c + 1 :=
  filterCard_erase_of_mem hi h

theorem outCnt_erase_of_ne {df : List Flight} {S : Finset ℕ} {i : ℕ} {c : String}
    (h : srcAt df i ≠ c) : outCnt df (S.erase i) c = outCnt df S c :=
  filterCard_erase_of_not h

theorem path_of_quasi_aux (df : List Flight) :
    ∀ N : ℕ, ∀ S : Finset ℕ, S.card ≤ N → S ⊆ Finset.range df.length →
      ∀ s d : String, s ≠ d → Quasi df S s d → NoBalSub df S →
        ∃ L : List ℕ, L ≠ [] ∧ L.Nodup ∧ L.toFinset = S ∧ walk df s d L := by
  intro N
  induction N with
  | zero =>
    intro S hcard _ s d _ hQ _
    exfalso
    have hS0 : S = ∅ := Finset.card_eq_zero.mp (Nat.le_zero.mp hcard)
    subst hS0
    obtain ⟨h1, _, _⟩ := hQ
    simp [outCnt, inCnt] at h1
  | succ N ih =>
    intro S hcard hsub s d hsd hQ hNB
    obtain ⟨hq1, hq2, hq3⟩ := hQ
    have hpos : 0 < outCnt df S s := by omega
    obtain ⟨i, hiS⟩ := Finset.card_pos.mp hpos
    have hi : i ∈ S := (Finset.mem_filter.mp hiS).1
    have hsrc : srcAt df i = s := (Finset.mem_filter.mp hiS).2
    have hsubE : S.erase i ⊆ Finset.range df.length :=
      (Finset.erase_subset _ _).trans hsub
    by_cases hcd : dstAt df i = d
    · have hbal : BalancedSel df (S.erase i) := by
        intro x
        by_cases hxs : x = s
        · subst hxs
          have h1 : outCnt df S x = outCnt df (S.erase i) x + 1 :=
            outCnt_erase_of_mem hi hsrc
          have h2 : inCnt df (S.erase i) x = inCnt df S x :=
            inCnt_erase_of_ne (by rw [hcd]; exact Ne.symm hsd)
          omega
        · by_cases hxd : x = d
          · subst hxd
            have h1 : inCnt df S x = inCnt df (S.erase i) x + 1 :=
              inCnt_erase_of_mem hi hcd
            have h2 : outCnt df (S.erase i) x = outCnt df S x :=
              outCnt_erase_of_ne (by rw [hsrc]; exact hsd)
            omega
          · have h1 : inCnt df (S.erase i) x = inCnt df S x :=
              inCnt_erase_of_ne (by rw [hcd]; exact Ne.symm hxd)
            have h2 : outCnt df (S.erase i) x = outCnt df S x :=
              outCnt_erase_of_ne (by rw [hsrc]; exact Ne.symm hxs)
            have h3 := hq3 x hxs hxd
            omega
      have hSe : S.erase i = ∅ := by
        by_contra hne
        exact hNB (S.erase i) (Finset.erase_subset _ _) hne hbal
      have hS1 : S = {i} := by
        rcases (Finset.erase_eq_empty_iff S i).mp hSe with h | h
        · exact absurd hi (h ▸ Finset.not_mem_empty i)
        · exact h
      refine ⟨[i], by simp, by simp, by simp [hS1], ?_⟩
      exact ⟨hsrc, hcd⟩
    · have hcs : dstAt df i ≠ s := by
        intro he
        refine hNB {i} (Finset.singleton_subset_iff.mpr hi) (by simp) ?_
        intro x
        rw [inCnt, outCnt, Finset.filter_singleton, Finset.filter_singleton]
        have hds : dstAt df i = srcAt df i := by rw [hsrc, he]
        rw [hds]
      have hQ2 : Quasi df (S.erase i) (dstAt df i) d := by
        refine ⟨?_, ?_, ?_⟩
        · have h1 : inCnt df S (dstAt df i) = inCnt df (S.erase i) (dstAt df i) + 1 :=
            inCnt_erase_of_mem hi rfl
          have h2 : outCnt df (S.erase i) (dstAt df i) = outCnt df S (dstAt df i) :=
            outCnt_erase_of_ne (by rw [hsrc]; exact fun e => hcs e.symm)
          have h3 := hq3 (dstAt df i) hcs hcd
          omega
        · have h1 : inCnt df (S.erase i) d = inCnt df S d := inCnt_erase_of_ne hcd
          have h2 : outCnt df (S.erase i) d = outCnt df S d :=
            outCnt_erase_of_ne (by rw [hsrc]; exact hsd)
          omega
        · intro x hxc hxd
          by_cases hxs : x = s
          · subst hxs
            have h1 : outCnt df S x = outCnt df (S.erase i) x + 1 :=
              outCnt_erase_of_mem hi hsrc
            have h2 : inCnt df (S.erase i) x = inCnt df S x := inCnt_erase_of_ne hcs
            omega
          · have h1 : inCnt df (S.erase i) x = inCnt df S x :=
              inCnt_erase_of_ne (fun e => hxc e.symm)
            have h2 : outCnt df (S.erase i) x = outCnt df S x :=
              outCnt_erase_of_ne (by rw [hsrc]; exact fun e => hxs e.symm)
            have h3 := hq3 x hxs hxd
            omega
      have hNB2 : NoBalSub df (S.erase i) := fun T hT =>
        hNB T (hT.trans (Finset.erase_subset _ _))
      have hcard2 : (S.erase i).card ≤ N := by
        rw [Finset.card_erase_of_mem hi]
        omega
      obtain ⟨L2, hLne, hLnd, hLfin, hLwalk⟩ :=
        ih (S.erase i) hcard2 hsubE (dstAt df i) d hcd hQ2 hNB2
      refine ⟨i :: L2, by simp, ?_, ?_, ?_⟩
      · refine List.nodup_cons.mpr ⟨?_, hLnd⟩
        intro hmem
        have hmem2 : i ∈ S.erase i := hLfin ▸ List.mem_toFinset.mpr hmem
        exact Finset.not_mem_erase i S hmem2
      · rw [List.toFinset_cons, hLfin, Finset.insert_erase hi]
      · exact ⟨hsrc, hLwalk⟩

theorem path_of_quasi (df : List Flight) :
    ∀ N : ℕ, ∀ S : Finset ℕ, S.card ≤ N → S ⊆ Finset.range df.length →
      ∀ s d : String, s ≠ d → Quasi df S s d →
        ∃ L : List ℕ, L ≠ [] ∧ walk df s d L := by
  intro N
  induction N with
  | zero =>
    intro S hcard _ s d _ hQ
    exfalso
    have hS0 : S = ∅ := Finset.card_eq_zero.mp (Nat.le_zero.mp hcard)
    subst hS0
    obtain ⟨h1, _, _⟩ := hQ
    simp [outCnt, inCnt] at h1
  | succ N ih =>
    intro S hcard hsub s d hsd hQ
    by_cases hbs : ∃ T, T ⊆ S ∧ T ≠ ∅ ∧ BalancedSel df T
    · obtain ⟨T, hTS, hTne, hTB⟩ := hbs
      obtain ⟨hq1, hq2, hq3⟩ := hQ
      have hQ2 : Quasi df (S \ T) s d := by
        refine ⟨?_, ?_, ?_⟩
        · have hIn : inCnt df (S \ T) s + inCnt df T s = inCnt df S s :=
            inCnt_sdiff_add hTS
          have hOut : outCnt df (S \ T) s + outCnt df T s = outCnt df S s :=
            outCnt_sdiff_add hTS
          have hb := hTB s
          omega
        · have hIn : inCnt df (S \ T) d + inCnt df T d = inCnt df S d :=
            inCnt_sdiff_add hTS
          have hOut : outCnt df (S \ T) d + outCnt df T d = outCnt df S d :=
            outCnt_sdiff_add hTS
          have hb := hTB d
          omega
        · intro c hcs hcd
          have hIn : inCnt df (S \ T) c + inCnt df T c = inCnt df S c :=
            inCnt_sdiff_add hTS
          have hOut : outCnt df (S \ T) c + outCnt df T c = outCnt df S c :=
            outCnt_sdiff_add hTS
          have hb := hTB c
          have h3 := hq3 c hcs hcd
          omega
      have hcard2 : (S \ T).card ≤ N := by
        have h1 := Finset.card_sdiff hTS
        have h2 : 0 < T.card :=
          Finset.card_pos.mpr (Finset.nonempty_iff_ne_empty.mpr hTne)
        have h3 : T.card ≤ S.card := Finset.card_le_card hTS
        omega
      exact ih (S \ T) hcard2 (Finset.sdiff_subset.trans hsub) s d hsd hQ2
    · have hNB : NoBalSub df S := fun T h1 h2 h3 => hbs ⟨T, h1, h2, h3⟩
      obtain ⟨L2, hLne, _, _, hLw⟩ :=
        path_of_quasi_aux df (N + 1) S hcard hsub s d hsd hQ hNB
      exact ⟨L2, hLne, hLw⟩

theorem walk_countP (df : List Flight) (d : String) :
    ∀ (L : List ℕ) (s : String), walk df s d L →
      ∀ x, L.countP (fun i => decide (dstAt df i = x)) + (if x = s then 1 else 0)
        = L.countP (fun i => decide (srcAt df i = x)) + (if x = d then 1 else 0) := by
  intro L
  induction L with
  | nil =>
    intro s hw x
    have hsd : s = d := hw
    subst hsd
    simp
  | cons i L ihL =>
    intro s hw x
    obtain ⟨hsrc, hw2⟩ := hw
    have hrec := ihL (dstAt df i) hw2 x
    rw [List.countP_cons, List.countP_cons, hsrc]
    simp only [decide_eq_true_eq]
    simp only [show (x = dstAt df i) ↔ (dstAt df i = x) from eq_comm] at hrec
    simp only [show (s = x) ↔ (x = s) from eq_comm]
    split_ifs at hrec ⊢ <;> omega

theorem endCity_append (df : List Flight) :
    ∀ (P : List ℕ) (s : String) (j : ℕ), endCity df s (P ++ [j]) = dstAt df j := by
  intro P
  induction P with
  | nil => intro s j; rfl
  | cons i P ih => intro s j; exact ih (dstAt df i) j

theorem walk_append_first (df : List Flight) (d : String) :
    ∀ (P Q : List ℕ) (s : String), walk df s d (P ++ Q) →
      walk df s (endCity df s P) P ∧ walk df (endCity df s P) d Q := by
  intro P
  induction P with
  | nil => intro Q s hw; exact ⟨rfl, hw⟩
  | cons i P ih =>
    intro Q s hw
    obtain ⟨hsrc, hw2⟩ := hw
    obtain ⟨h1, h2⟩ := ih Q (dstAt df i) hw2
    exact ⟨⟨hsrc, h1⟩, h2⟩

theorem inCnt_toFinset {df : List Flight} {x : String} {P : List ℕ}
    (h : P.Nodup) :
    inCnt df P.toFinset x = P.countP (fun i => decide (dstAt df i = x)) := by
  rw [inCnt, List.countP_eq_length_filter]
  have h1 : Finset.filter (fun i => dstAt df i = x) P.toFinset
      = (P.filter (fun i => decide (dstAt df i = x))).toFinset := by
    ext a
    simp [List.mem_filter]
  rw [h1, List.toFinset_card_of_nodup (List.Nodup.filter _ h)]

theorem outCnt_toFinset {df : List Flight} {x : String} {P : List ℕ}
    (h : P.Nodup) :
    outCnt df P.toFinset x = P.countP (fun i => decide (srcAt df i = x)) := by
  rw [outCnt, List.countP_eq_length_filter]
  have h1 : Finset.filter (fun i => srcAt df i = x) P.toFinset
      = (P.filter (fun i => decide (srcAt df i = x))).toFinset := by
    ext a
    simp [List.mem_filter]
  rw [h1, List.toFinset_card_of_nodup (List.Nodup.filter _ h)]

theorem walk_cities_nodup (df : List Flight) (d : String) :
    ∀ (L : List ℕ) (s : String), L.Nodup → walk df s d L →
      NoBalSub df L.toFinset → (s :: L.map (dstAt df)).Nodup := by
  intro L
  induction L with
  | nil => intro s _ _ _; simp
  | cons i L ih =>
    intro s hnd hw hNB
    obtain ⟨hsrc, hw2⟩ := hw
    have hndL : L.Nodup := (List.nodup_cons.mp hnd).2
    have hNB2 : NoBalSub df L.toFinset := by
      intro T hT
      refine hNB T (hT.trans ?_)
      rw [List.toFinset_cons]
      exact Finset.subset_insert _ _
    have htail : (dstAt df i :: L.map (dstAt df)).Nodup := ih (dstAt df i) hndL hw2 hNB2
    rw [List.map_cons, List.nodup_cons]
    refine ⟨?_, htail⟩
    intro hmem
    rcases List.mem_cons.mp hmem with he | hmem2
    · refine hNB {i} ?_ (by simp) ?_
      · rw [List.toFinset_cons]
        exact Finset.singleton_subset_iff.mpr (Finset.mem_insert_self i _)
      · intro x
        rw [inCnt, outCnt, Finset.filter_singleton, Finset.filter_singleton]
        have hds : dstAt df i = srcAt df i := by rw [hsrc, he]
        rw [hds]
    · obtain ⟨j, hjL, hjs⟩ : ∃ j ∈ L, dstAt df j = s := by
        obtain ⟨j, hj, he⟩ := List.mem_map.mp hmem2
        exact ⟨j, hj, he⟩
      obtain ⟨A, B, hAB⟩ := List.append_of_mem hjL
      have hsplit : i :: L = (i :: (A ++ [j])) ++ B := by
        rw [hAB]
        simp
      have hwalkfull : walk df s d ((i :: (A ++ [j])) ++ B) := by
        rw [← hsplit]
        exact ⟨hsrc, hw2⟩
      have hend : endCity df s (i :: (A ++ [j])) = s := by
        show endCity df (dstAt df i) (A ++ [j]) = s
        rw [endCity_append df A (dstAt df i) j, hjs]
      obtain ⟨hP, _⟩ := walk_append_first df d (i :: (A ++ [j])) B s hwalkfull
      rw [hend] at hP
      have hPnd : (i :: (A ++ [j])).Nodup := by
        have hsubl : (i :: (A ++ [j])).Sublist (i :: L) := by
          rw [hsplit]
          exact List.sublist_append_left _ _
        exact List.Nodup.sublist hsubl hnd
      refine hNB (i :: (A ++ [j])).toFinset ?_ ?_ ?_
      · intro y hy
        rw [List.mem_toFinset] at hy
        refine List.mem_toFinset.mpr ?_
        rw [hsplit]
        exact List.mem_append.mpr (Or.inl hy)
      · intro he
        have hii : i ∈ (i :: (A ++ [j])).toFinset :=
          List.mem_toFinset.mpr (List.mem_cons_self i _)
        rw [he] at hii
        exact Finset.not_mem_empty i hii
      · intro x
        have hcnt := walk_countP df s (i :: (A ++ [j])) s hP x
        have hD : inCnt df (i :: (A ++ [j])).toFinset x
            = (i :: (A ++ [j])).countP (fun k => decide (dstAt df k = x)) :=
          inCnt_toFinset hPnd
        have hO : outCnt df (i :: (A ++ [j])).toFinset x
            = (i :: (A ++ [j])).countP (fun k => decide (srcAt df k = x)) :=
          outCnt_toFinset hPnd
        rw [inCnt] at hD ⊢
        rw [outCnt] at hO ⊢
        omega

theorem selectRows_ne_nil {df : List Flight} {S : Finset ℕ}
    (hsub : S ⊆ Finset.range df.length) (hne : S ≠ ∅) :
    selectRows df S ≠ [] := by
  obtain ⟨i, hi⟩ := Finset.nonempty_iff_ne_empty.mpr hne
  have hilt : i < df.length := Finset.mem_range.mp (hsub hi)
  have hmem : i ∈ (List.range df.length).filter (fun j => decide (j ∈ S)) :=
    List.mem_filter.mpr ⟨List.mem_range.mpr hilt, decide_eq_true hi⟩
  intro he
  rw [selectRows, List.map_eq_nil_iff] at he
  rw [he] at hmem
  exact List.not_mem_nil i hmem

theorem countP_selectRows {df : List Flight} {S : Finset ℕ}
    (hsub : S ⊆ Finset.range df.length) (p : Flight → Bool) :
    (selectRows df S).countP p = (S.filter (fun i => p (flightAt df i) = true)).card := by
  rw [selectRows, List.countP_map, List.countP_filter]
  rw [List.countP_eq_length_filter]
  have hnd : ((List.range df.length).filter
      (fun a => (p ∘ flightAt df) a && decide (a ∈ S))).Nodup :=
    List.Nodup.filter _ (List.nodup_range _)
  rw [← List.toFinset_card_of_nodup hnd]
  congr 1
  ext a
  simp only [List.mem_toFinset, List.mem_filter, List.mem_range, Finset.mem_filter,
    Bool.and_eq_true, decide_eq_true_eq, Function.comp]
  constructor
  · rintro ⟨_, h2, h3⟩
    exact ⟨h3, h2⟩
  · rintro ⟨h1, h2⟩
    exact ⟨Finset.mem_range.mp (hsub h1), h2, h1⟩

theorem selectRows_perm {df : List Flight} {S : Finset ℕ} {L : List ℕ}
    (hsub : S ⊆ Finset.range df.length) (hnd : L.Nodup) (hfin : L.toFinset = S) :
    (selectRows df S).Perm (L.map (flightAt df)) := by
  rw [selectRows]
  refine List.Perm.map _ ?_
  refine (List.perm_ext_iff_of_nodup (List.Nodup.filter _ (List.nodup_range _)) hnd).mpr ?_
  intro a
  simp only [List.mem_filter, List.mem_range, decide_eq_true_eq]
  constructor
  · rintro ⟨_, h2⟩
    rw [← hfin] at h2
    exact List.mem_toFinset.mp h2
  · intro ha
    have haS : a ∈ S := hfin ▸ List.mem_toFinset.mpr ha
    exact ⟨Finset.mem_range.mp (hsub haS), haS⟩

theorem find_multi_leg_none {df : List Flight} {s d : String}
    (h : solve (multiLegLP df s d) = none) :
    find_multi_leg_itinerary df s d = ([], 0) := by
  rw [find_multi_leg_itinerary, h]

theorem find_multi_leg_some {df : List Flight} {s d : String} {S : Finset ℕ}
    (h : solve (multiLegLP df s d) = some S) :
    find_multi_leg_itinerary df s d
      = (sortByDeparture (selectRows df S), sumPrice (selectRows df S)) := by
  rw [find_multi_leg_itinerary, h]

theorem find_multi_leg_empty_sel {df : List Flight} {s d : String}
    (h : solve (multiLegLP df s d) = some ∅) :
    find_multi_leg_itinerary df s d = ([], 0) := by
  rw [find_multi_leg_some h, selectRows_empty]
  rfl

/-- C1: for every candidate set and every combination of the optional
secondary constraints, if find_cheapest_itinerary returns a non-empty
result, the returned flight's price is at most the price of every flight
of the candidate set satisfying the same secondary constraints. -/
theorem cheapest_price_minimal (df : List Flight) (md : Option ℚ)
    (pd la : Option String) (f g : Flight)
    (hf : f ∈ (find_cheapest_itinerary df md pd la).1)
    (hg : g ∈ df)
    (h1 : ∀ x, md = some x → g.duration ≤ x)
    (h2 : ∀ t, pd = some t → g.departure_time = t)
    (h3 : ∀ t, la = some t → g.arrival_time = t) :
    f.price ≤ g.price := by
  have hne : applyConstraints df md pd la ≠ [] := by
    intro he
    rw [find_cheapest_itinerary, if_pos he] at hf
    exact List.not_mem_nil f hf
  obtain ⟨i, hi, heq, hmin⟩ := cheapest_spec df md pd la hne
  rw [heq] at hf
  have hfi : f = flightAt (applyConstraints df md pd la) i := List.mem_singleton.mp hf
  rw [hfi]
  exact hmin g (mem_applyConstraints.mpr ⟨hg, h1, h2, h3⟩)

/-- C7: if the secondary-constraint filters leave no flight,
find_cheapest_itinerary returns the empty itinerary with total price 0 as
a normal return value (the source prints a warning, it does not raise);
otherwise it returns exactly one flight, so the caller can distinguish the
two outcomes by the length of the returned frame. -/
theorem cheapest_empty_sentinel (df : List Flight) (md : Option ℚ)
    (pd la : Option String) :
    (applyConstraints df md pd la = [] →
      find_cheapest_itinerary df md pd la = ([], 0)) ∧
    (applyConstraints df md pd la ≠ [] →
      (find_cheapest_itinerary df md pd la).1.length = 1) := by
  constructor
  · intro h
    rw [find_cheapest_itinerary, if_pos h]
  · intro h
    obtain ⟨i, hi, heq, _⟩ := cheapest_spec df md pd la h
    rw [heq]
    rfl

/-- C6: tightening the secondary constraints (lowering max_duration,
adding an equality constraint that was absent) never decreases the total
price returned by find_cheapest_itinerary, unless the tighter result is
empty. -/
theorem tightening_monotone (df : List Flight) (md₁ md₂ : Option ℚ)
    (pd₁ pd₂ la₁ la₂ : Option String)
    (hmd : md₁ = none ∨ ∃ a b, md₁ = some a ∧ md₂ = some b ∧ b ≤ a)
    (hpd : pd₁ = none ∨ pd₂ = pd₁)
    (hla : la₁ = none ∨ la₂ = la₁)
    (hne : (find_cheapest_itinerary df md₂ pd₂ la₂).1 ≠ []) :
    (find_cheapest_itinerary df md₁ pd₁ la₁).2
      ≤ (find_cheapest_itinerary df md₂ pd₂ la₂).2 := by
  have hne2 : applyConstraints df md₂ pd₂ la₂ ≠ [] := by
    intro he
    rw [find_cheapest_itinerary, if_pos he] at hne
    exact hne rfl
  obtain ⟨i, hi, heq2, hmin2⟩ := cheapest_spec df md₂ pd₂ la₂ hne2
  have hf2mem : flightAt (applyConstraints df md₂ pd₂ la₂) i
      ∈ applyConstraints df md₂ pd₂ la₂ := flightAt_mem hi
  have hf2cond := mem_applyConstraints.mp hf2mem
  have hf1mem : flightAt (applyConstraints df md₂ pd₂ la₂) i
      ∈ applyConstraints df md₁ pd₁ la₁ := by
    refine mem_applyConstraints.mpr ⟨hf2cond.1, ?_, ?_, ?_⟩
    · intro x hx
      rcases hmd with h | ⟨a, b, ha, hb, hab⟩
      · rw [h] at hx
        cases hx
      · rw [ha] at hx
        have hax : a = x := Option.some.inj hx
        exact hax ▸ le_trans (hf2cond.2.1 b hb) hab
    · intro t ht
      rcases hpd with h | h
      · rw [h] at ht
        cases ht
      · exact hf2cond.2.2.1 t (h.trans ht)
    · intro t ht
      rcases hla with h | h
      · rw [h] at ht
        cases ht
      · exact hf2cond.2.2.2 t (h.trans ht)
  have hne1 : applyConstraints df md₁ pd₁ la₁ ≠ [] := List.ne_nil_of_mem hf1mem
  obtain ⟨i₁, hi₁, heq1, hmin1⟩ := cheapest_spec df md₁ pd₁ la₁ hne1
  rw [heq1, heq2]
  exact hmin1 _ hf1mem

/-- C8: both optimizers are deterministic functions of their input: two
calls with the same candidate set (same records in the same order) and the
same parameters return the same result.  The embedding is a pure function
because the source is: neither optimizer reads or writes state outside the
call, each solve builds a fresh problem and fresh variables, and the CBC
solver is invoked identically on identical input. -/
theorem optimizers_deterministic :
    ∀ (df : List Flight) (md : Option ℚ) (pd la : Option String) (s d : String),
      find_cheapest_itinerary df md pd la = find_cheapest_itinerary df md pd la ∧
      find_multi_leg_itinerary df s d = find_multi_leg_itinerary df s d :=
  fun _ _ _ _ _ _ => ⟨rfl, rfl⟩

/-- C3: find_multi_leg_itinerary returns the empty itinerary and total
price 0 whenever the source equals the destination, the candidate set is
empty, the source or destination city does not occur in the candidate
set, or no directed path of candidate flights connects the source to the
destination. -/
theorem multi_leg_edge_cases (df : List Flight) (s d : String)
    (hpos : ∀ f ∈ df, 0 ≤ f.price)
    (h : s = d ∨ df = [] ∨ s ∉ allCities df ∨ d ∉ allCities df ∨
         ¬ ∃ L : List ℕ, L ≠ [] ∧ walk df s d L) :
    find_multi_leg_itinerary df s d = ([], 0) := by
  cases hsol : solve (multiLegLP df s d) with
  | none => exact find_multi_leg_none hsol
  | some S =>
    have hF := solve_feasible _ hsol
    have hsub : S ⊆ Finset.range df.length := hF.1
    refine find_multi_leg_empty_sel ?_
    suffices hS : S = ∅ by rw [← hS]; exact hsol
    rcases h with h | h | h | h | h
    · subst h
      by_cases hs : s ∈ allCities df
      · exact absurd hF (not_feasible_same hs)
      · exact solve_eq_empty_of_absent hpos hs hs hsol
    · subst h
      have h0 : S ⊆ Finset.range 0 := hsub
      simpa [Finset.subset_empty] using h0
    · by_cases hd : d ∈ allCities df
      · exact absurd hF (not_feasible_dst_only h hd)
      · exact solve_eq_empty_of_absent hpos h hd hsol
    · by_cases hs : s ∈ allCities df
      · exact absurd hF (not_feasible_src_only hs h)
      · exact solve_eq_empty_of_absent hpos hs h hsol
    · by_cases hs : s ∈ allCities df
      · by_cases hd : d ∈ allCities df
        · by_cases hsd : s = d
          · subst hsd
            exact absurd hF (not_feasible_same hs)
          · exact absurd
              (path_of_quasi df S.card S le_rfl hsub s d hsd
                (quasi_of_feasible hF hs hd hsd)) h
        · exact absurd hF (not_feasible_src_only hs hd)
      · by_cases hd : d ∈ allCities df
        · exact absurd hF (not_feasible_dst_only hs hd)
        · exact solve_eq_empty_of_absent hpos hs hd hsol

/-- C2 amended: whenever find_multi_leg_itinerary returns a non-empty
itinerary (and prices are non-negative, as the data model requires), the
selected flights form a simple path from source to destination: they can
be ordered as a chain of flights from s to d visiting no city twice,
exactly one selected flight departs s, exactly one arrives at d, and
every other city has as many selected inbound as outbound flights.  (For
the empty result the claim's exactly-one conditions do not hold, which is
the correction.) -/
theorem multi_leg_simple_path (df : List Flight) (s d : String)
    (hpos : ∀ f ∈ df, 0 ≤ f.price)
    (hne : (find_multi_leg_itinerary df s d).1 ≠ []) :
    ∃ L : List ℕ, L ≠ [] ∧ L.Nodup ∧ walk df s d L ∧
      (s :: L.map (dstAt df)).Nodup ∧
      (find_multi_leg_itinerary df s d).1.Perm (L.map (flightAt df)) ∧
      (find_multi_leg_itinerary df s d).1.countP
        (fun f => decide (f.source_city = s)) = 1 ∧
      (find_multi_leg_itinerary df s d).1.countP
        (fun f => decide (f.destination_city = d)) = 1 ∧
      ∀ c, c ≠ s → c ≠ d →
        (find_multi_leg_itinerary df s d).1.countP
          (fun f => decide (f.destination_city = c))
        = (find_multi_leg_itinerary df s d).1.countP
          (fun f => decide (f.source_city = c)) := by
  cases hsol : solve (multiLegLP df s d) with
  | none => exact absurd (congrArg Prod.fst (find_multi_leg_none hsol)) hne
  | some S =>
    have hF := solve_feasible _ hsol
    have hsub : S ⊆ Finset.range df.length := hF.1
    have hitin : (find_multi_leg_itinerary df s d).1
        = sortByDeparture (selectRows df S) :=
      congrArg Prod.fst (find_multi_leg_some hsol)
    have hSne : S ≠ ∅ := by
      intro h0
      apply hne
      rw [hitin, h0, selectRows_empty]
      rfl
    have hs : s ∈ allCities df := by
      by_contra hsn
      by_cases hd : d ∈ allCities df
      · exact absurd hF (not_feasible_dst_only hsn hd)
      · exact hSne (solve_eq_empty_of_absent hpos hsn hd hsol)
    have hd : d ∈ allCities df := by
      by_contra hdn
      exact absurd hF (not_feasible_src_only hs hdn)
    have hsd : s ≠ d := by
      intro h0
      subst h0
      exact not_feasible_same hs hF
    have hQ := quasi_of_feasible hF hs hd hsd
    have hNB := noBalSub_of_solve hpos hsol
    obtain ⟨L, hLne, hLnd, hLfin, hLw⟩ :=
      path_of_quasi_aux df S.card S le_rfl hsub s d hsd hQ hNB
    have hcity : (s :: L.map (dstAt df)).Nodup :=
      walk_cities_nodup df d L s hLnd hLw (hLfin ▸ hNB)
    have hperm : (find_multi_leg_itinerary df s d).1.Perm (L.map (flightAt df)) := by
      rw [hitin]
      exact (List.perm_insertionSort depLe (selectRows df S)).trans
        (selectRows_perm hsub hLnd hLfin)
    have hcnt : ∀ p : Flight → Bool,
        (find_multi_leg_itinerary df s d).1.countP p
          = (S.filter (fun i => p (flightAt df i) = true)).card := by
      intro p
      rw [hitin]
      calc (sortByDeparture (selectRows df S)).countP p
          = (selectRows df S).countP p :=
            List.Perm.countP_eq p (List.perm_insertionSort depLe _)
        _ = _ := countP_selectRows hsub p
    have hsrcf : ∀ x : String,
        S.filter (fun i => (decide ((flightAt df i).source_city = x)) = true)
          = S.filter (fun i => srcAt df i = x) := by
      intro x
      refine Finset.filter_congr ?_
      intro i _
      simp [srcAt]
    have hdstf : ∀ x : String,
        S.filter (fun i => (decide ((flightAt df i).destination_city = x)) = true)
          = S.filter (fun i => dstAt df i = x) := by
      intro x
      refine Finset.filter_congr ?_
      intro i _
      simp [dstAt]
    have hcond := (feasible_multiLeg_iff.mp hF).2
    refine ⟨L, hLne, hLnd, hLw, hcity, hperm, ?_, ?_, ?_⟩
    · rw [hcnt, hsrcf]
      have hc := hcond s hs
      rw [if_pos rfl] at hc
      exact hc.1
    · rw [hcnt, hdstf]
      have hc := hcond d hd
      rw [if_neg (Ne.symm hsd), if_pos rfl] at hc
      exact hc.1
    · intro c hcs hcd
      rw [hcnt, hcnt, hsrcf, hdstf]
      by_cases hcA : c ∈ allCities df
      · have hc := hcond c hcA
        rw [if_neg hcs, if_neg hcd] at hc
        exact hc
      · have h1 : inCnt df S c = 0 := inCnt_zero_outside hsub hcA
        have h2 : outCnt df S c = 0 := outCnt_zero_outside hsub hcA
        rw [inCnt] at h1
        rw [outCnt] at h2
        rw [h1, h2]

/-- C2 counterexample: for the candidate set with the single flight from
A to B and the request from X to Y, the returned itinerary is empty, so
it is not the case that exactly one selected flight departs the source
city: the claim fails as stated for empty results. -/
theorem multi_leg_simple_path_fails_on_empty :
    (find_multi_leg_itinerary dfD "X" "Y").1 = [] ∧
    ¬ ((find_multi_leg_itinerary dfD "X" "Y").1.countP
        (fun f => decide (f.source_city = "X")) = 1) := by
  decide

/-- C2 witness: scenario B, the two-leg path A-B-C of price 110 beats the
direct flight of price 200, and the returned itinerary is a simple path. -/
theorem multi_leg_simple_path_check :
    ∃ L : List ℕ, L ≠ [] ∧ L.Nodup ∧ walk dfB "A" "C" L ∧
      ("A" :: L.map (dstAt dfB)).Nodup ∧
      (find_multi_leg_itinerary dfB "A" "C").1.Perm (L.map (flightAt dfB)) ∧
      (find_multi_leg_itinerary dfB "A" "C").1.countP
        (fun f => decide (f.source_city = "A")) = 1 ∧
      (find_multi_leg_itinerary dfB "A" "C").1.countP
        (fun f => decide (f.destination_city = "C")) = 1 ∧
      ∀ c, c ≠ "A" → c ≠ "C" →
        (find_multi_leg_itinerary dfB "A" "C").1.countP
          (fun f => decide (f.destination_city = c))
        = (find_multi_leg_itinerary dfB "A" "C").1.countP
          (fun f => decide (f.source_city = c)) :=
  multi_leg_simple_path dfB "A" "C" (by decide) (by decide)

/-- C3 witness: a one-flight candidate set with source equal to
destination yields the empty itinerary and price 0. -/
theorem multi_leg_edge_cases_check :
    find_multi_leg_itinerary dfD "A" "A" = ([], 0) :=
  multi_leg_edge_cases dfD "A" "A" (by decide) (Or.inl rfl)

/-- C4 counterexample: for the single flight from A to B and the request
from B to A the flow LP has no feasible assignment, so the solve fails;
the function still returns the ordinary empty itinerary with price 0 (no
variable value equals 1.0), which is exactly the infeasible sentinel, not
a distinct error. -/
theorem solver_failure_not_distinct :
    solve (multiLegLP dfD "B" "A") = none ∧
    find_multi_leg_itinerary dfD "B" "A" = ([], 0) := by
  decide

/-- C4 amended: the source never inspects the solver status; when the
solve does not reach a feasible conclusion the optimizer returns the same
empty-itinerary, zero-price value as the expected infeasible outcome, and
no distinct error is surfaced. -/
theorem solver_failure_returns_sentinel (df : List Flight) (s d : String)
    (h : solve (multiLegLP df s d) = none) :
    find_multi_leg_itinerary df s d = ([], 0) := by
  rw [find_multi_leg_itinerary, h]

/-- C4 witness: the infeasible request from B to A over the single flight
from A to B returns the sentinel. -/
theorem solver_failure_returns_sentinel_check :
    find_multi_leg_itinerary dfD "B" "A" = ([], 0) :=
  solver_failure_returns_sentinel dfD "B" "A" (by decide)

/-- C1 witness: scenario A, the returned flight of price 80 is at most
the price of the other candidate of price 100. -/
theorem cheapest_price_minimal_check : flA2.price ≤ flA1.price :=
  cheapest_price_minimal dfA none none none flA2 flA1 (by decide) (by decide)
    (fun x hx => by cases hx) (fun t ht => by cases ht) (fun t ht => by cases ht)

/-- C6 witness: adding the max_duration bound 5 excludes the cheap long
flight, and the price rises from 50 to 90. -/
theorem tightening_monotone_check :
    (find_cheapest_itinerary dfM none none none).2
      ≤ (find_cheapest_itinerary dfM (some 5) none none).2 :=
  tightening_monotone dfM none (some 5) none none none none
    (Or.inl rfl) (Or.inl rfl) (Or.inl rfl) (by decide)

/-- C7 witness: the empty candidate set yields the sentinel, scenario A
yields exactly one flight. -/
theorem cheapest_empty_sentinel_check :
    find_cheapest_itinerary [] none none none = ([], 0) ∧
    (find_cheapest_itinerary dfA none none none).1.length = 1 := by
  constructor
  · exact (cheapest_empty_sentinel [] none none none).1 rfl
  · exact (cheapest_empty_sentinel dfA none none none).2 (by decide)

/-- C9: with only max_stops set, filter_flights keeps exactly the rows
whose stops label, lower-cased and mapped through
{zero: 0, one: 1, two_or_more: 2} with default 2, is at most max_stops
(specStopLevel restates the spec's mapping); in particular a row with an
unrecognized label is kept if and only if max_stops is at least 2. -/
theorem stops_bucketing (df : List Flight) (k : ℕ) (f : Flight) :
    (f ∈ filter_flights df none none (some k) none none none none true ↔
      f ∈ df ∧ specStopLevel f.stops ≤ k) ∧
    (lowerStr f.stops ≠ "zero" → lowerStr f.stops ≠ "one" →
      lowerStr f.stops ≠ "two_or_more" →
      (f ∈ filter_flights df none none (some k) none none none none true ↔
        f ∈ df ∧ 2 ≤ k)) := by
  have hmem : f ∈ filter_flights df none none (some k) none none none none true ↔
      f ∈ df ∧ stop_mapping_get (lowerStr f.stops) ≤ k := by
    simp [filter_flights, List.mem_filter]
  have hspec : stop_mapping_get (lowerStr f.stops) = specStopLevel f.stops := rfl
  constructor
  · rw [hmem, hspec]
  · intro h1 h2 h3
    have h4 : stop_mapping_get (lowerStr f.stops) = 2 := by
      rw [stop_mapping_get, if_neg h1, if_neg h2, if_neg h3]
    rw [hmem, h4]

/-- C9 witness: a flight with the unrecognized stops label is kept at
max_stops 2 and dropped at max_stops 1. -/
theorem stops_bucketing_check :
    flU ∈ filter_flights [flU] none none (some 2) none none none none true ∧
    flU ∉ filter_flights [flU] none none (some 1) none none none none true := by
  constructor
  · exact ((stops_bucketing [flU] 2 flU).2 (by decide) (by decide) (by decide)).mpr
      ⟨by decide, by decide⟩
  · intro hmem
    have h5 := ((stops_bucketing [flU] 1 flU).2 (by decide) (by decide) (by decide)).mp hmem
    exact absurd h5.2 (by decide)
